import Mathlib

/-!
Verification of the PlayNexus System Monitor core against its source
(`src/main.js`, `src/renderer/js/app.js`).

The development shallowly embeds the sampler/broadcaster of `main.js`
(`startSystemMonitoring`, `stopSystemMonitoring`, `getSystemData`) and the
plugin system of `app.js` (metadata extraction, load/unload/toggle/delete,
plugin storage, the chart retention window).  JavaScript numbers are
modelled as rationals, JavaScript's dynamic values (where a claim needs to
distinguish a string from a number) as an inductive `JVal`, promise
rejection / thrown exceptions as `Except`/`Option`, and the platform
builtins `JSON.parse` / `JSON.stringify` / `localStorage` by executable
Lean models defined below.
-/

/-- Association-list lookup, modelling JavaScript `Map.get` (first binding
for the key, `undefined` as `none`). -/
def lookupA {β : Type} (l : List (String × β)) (k : String) : Option β :=
  match l with
  | [] => none
  | (k', v) :: rest => if k' = k then some v else lookupA rest k

/-- Association-list update, modelling JavaScript `Map.set`: an existing key
keeps its position and gets the new value, a new key is appended. -/
def setA {β : Type} (l : List (String × β)) (k : String) (v : β) :
    List (String × β) :=
  match l with
  | [] => [(k, v)]
  | (k', v') :: rest =>
      if k' = k then (k, v) :: rest else (k', v') :: setA rest k v

/-- Association-list removal, modelling JavaScript `Map.delete`. -/
def removeA {β : Type} (l : List (String × β)) (k : String) :
    List (String × β) :=
  l.filter (fun p => p.1 ≠ k)

/-! ## A model of JSON values and of the `JSON.parse` / `JSON.stringify`
builtins.

`app.js` round-trips plugin storage through `JSON.stringify`/`JSON.parse`
and parses plugin metadata with `JSON.parse`; the model below gives those
builtins executable semantics.  Numbers are modelled as integers (every
numeric literal appearing in the claims is integral), strings carry
arbitrary characters and are escaped on output.  Arrays and objects use
purpose-built list types so that the mutual recursion stays structural. -/
mutual
inductive JVal : Type where
  | null : JVal
  | bool (b : Bool) : JVal
  | num (n : Int) : JVal
  | str (s : String) : JVal
  | arr (xs : JList) : JVal
  | obj (fs : JMembers) : JVal
deriving DecidableEq
inductive JList : Type where
  | nil : JList
  | cons (x : JVal) (xs : JList) : JList
deriving DecidableEq
inductive JMembers : Type where
  | nil : JMembers
  | cons (k : String) (v : JVal) (fs : JMembers) : JMembers
deriving DecidableEq
end

/-- Helper for `natDigitsChars`: digits of `n`, most significant first,
with explicit fuel so that the kernel can evaluate it. -/
def natDigitsCharsAux : Nat → Nat → List Char
  | 0, _ => []
  | fuel + 1, n =>
      if n = 0 then []
      else natDigitsCharsAux fuel (n / 10) ++ [Nat.digitChar (n % 10)]

/-- Decimal digits of `n`, most significant first, as characters. -/
def natDigitsChars (n : Nat) : List Char :=
  if n = 0 then ['0'] else natDigitsCharsAux n n

/-- Characters of the decimal form of an integer. -/
def intChars (n : Int) : List Char :=
  if n < 0 then '-' :: natDigitsChars n.natAbs else natDigitsChars n.natAbs

/-- Hexadecimal digit character (lower case), for `\u00XX` escapes. -/
def hexChar (n : Nat) : Char :=
  if n < 10 then Nat.digitChar n
  else if n = 10 then 'a'
  else if n = 11 then 'b'
  else if n = 12 then 'c'
  else if n = 13 then 'd'
  else if n = 14 then 'e'
  else 'f'

/-- JSON escaping of a single string character, as `JSON.stringify` emits
it: quote and backslash are backslash-escaped, the common control
characters use their short escapes, other control characters use
`\u00XX`. -/
def escChar (c : Char) : List Char :=
  if c = '"' then ['\\', '"']
  else if c = '\\' then ['\\', '\\']
  else if c = '\n' then ['\\', 'n']
  else if c = '\t' then ['\\', 't']
  else if c = '\r' then ['\\', 'r']
  else if c = '\x08' then ['\\', 'b']
  else if c = '\x0c' then ['\\', 'f']
  else if c.toNat < 32 then
    ['\\', 'u', '0', '0', hexChar (c.toNat / 16), hexChar (c.toNat % 16)]
  else [c]

/-- JSON escaping of a whole string body. -/
def escStr (s : List Char) : List Char :=
  match s with
  | [] => []
  | c :: rest => escChar c ++ escStr rest

mutual
/-- Characters emitted by `JSON.stringify` for one JSON value. -/
def strVal : JVal → List Char
  | .null => "null".data
  | .bool b => (if b then "true" else "false").data
  | .num n => intChars n
  | .str s => '"' :: (escStr s.data ++ ['"'])
  | .arr .nil => ['[', ']']
  | .arr (.cons x xs) => '[' :: strElems x xs
  | .obj .nil => ['\x7b', '\x7d']
  | .obj (.cons k v fs) => '\x7b' :: strMembers k v fs
termination_by v => sizeOf v
decreasing_by all_goals (simp_all; try omega)

/-- Comma-separated array elements followed by the closing bracket. -/
def strElems (x : JVal) (xs : JList) : List Char :=
  match xs with
  | .nil => strVal x ++ [']']
  | .cons y ys => strVal x ++ (',' :: strElems y ys)
termination_by 1 + sizeOf x + sizeOf xs
decreasing_by all_goals (simp_all; try omega)

/-- Comma-separated object members followed by the closing brace. -/
def strMembers (k : String) (v : JVal) (fs : JMembers) : List Char :=
  match fs with
  | .nil => ('"' :: (escStr k.data ++ ['"', ':'])) ++ (strVal v ++ ['\x7d'])
  | .cons k' v' fs' =>
      ('"' :: (escStr k.data ++ ['"', ':'])) ++ (strVal v ++ (',' :: strMembers k' v' fs'))
termination_by 1 + sizeOf v + sizeOf fs
decreasing_by all_goals (simp_all; try omega)
end

/-- Model of the `JSON.stringify` builtin on the modelled value space. -/
def jsonStringify (v : JVal) : String := String.mk (strVal v)

/-- Numeric value of a hexadecimal digit character, `none` otherwise. -/
def hexVal (c : Char) : Option Nat :=
  if '0' ≤ c ∧ c ≤ '9' then some (c.toNat - 48)
  else if 'a' ≤ c ∧ c ≤ 'f' then some (c.toNat - 87)
  else if 'A' ≤ c ∧ c ≤ 'F' then some (c.toNat - 55)
  else none

/-- String-body scanner of the JSON parser: consumes characters up to the
closing quote, decoding escapes; returns the decoded body and the rest of
the input. -/
def parseStrBody : List Char → Option (List Char × List Char)
  | [] => none
  | c :: rest =>
      if c = '"' then some ([], rest)
      else if c = '\\' then
        match rest with
        | [] => none
        | e :: rest' =>
            if e = '"' then (parseStrBody rest').map (fun p => ('"' :: p.1, p.2))
            else if e = '\\' then (parseStrBody rest').map (fun p => ('\\' :: p.1, p.2))
            else if e = '/' then (parseStrBody rest').map (fun p => ('/' :: p.1, p.2))
            else if e = 'n' then (parseStrBody rest').map (fun p => ('\n' :: p.1, p.2))
            else if e = 't' then (parseStrBody rest').map (fun p => ('\t' :: p.1, p.2))
            else if e = 'r' then (parseStrBody rest').map (fun p => ('\r' :: p.1, p.2))
            else if e = 'b' then (parseStrBody rest').map (fun p => ('\x08' :: p.1, p.2))
            else if e = 'f' then (parseStrBody rest').map (fun p => ('\x0c' :: p.1, p.2))
            else if e = 'u' then
              match rest' with
              | h1 :: h2 :: h3 :: h4 :: rest'' =>
                  match hexVal h1, hexVal h2, hexVal h3, hexVal h4 with
                  | some a, some b, some c', some d =>
                      (parseStrBody rest'').map
                        (fun p => (Char.ofNat (((a * 16 + b) * 16 + c') * 16 + d) :: p.1, p.2))
                  | _, _, _, _ => none
              | _ => none
            else none
      else (parseStrBody rest).map (fun p => (c :: p.1, p.2))

/-- Greedy decimal-digit scanner: value accumulated so far, then input. -/
def parseDigitsAux (acc : Nat) : List Char → Nat × List Char
  | [] => (acc, [])
  | c :: rest =>
      if c.isDigit then parseDigitsAux (acc * 10 + (c.toNat - 48)) rest
      else (acc, c :: rest)

/-- Nonempty decimal-digit scanner. -/
def parseDigits : List Char → Option (Nat × List Char)
  | [] => none
  | c :: rest =>
      if c.isDigit then some (parseDigitsAux (c.toNat - 48) rest) else none

/-- One step of the JSON value parser, with the continuations for array
elements and object members passed in explicitly. -/
def parseValBody (pE : List Char → Option (JList × List Char))
    (pM : List Char → Option (JMembers × List Char)) :
    List Char → Option (JVal × List Char)
  | [] => none
  | c :: rest =>
      if c = 'n' then
        match rest with
        | 'u' :: 'l' :: 'l' :: r => some (.null, r)
        | _ => none
      else if c = 't' then
        match rest with
        | 'r' :: 'u' :: 'e' :: r => some (.bool true, r)
        | _ => none
      else if c = 'f' then
        match rest with
        | 'a' :: 'l' :: 's' :: 'e' :: r => some (.bool false, r)
        | _ => none
      else if c = '"' then
        (parseStrBody rest).map (fun p => (.str (String.mk p.1), p.2))
      else if c = '-' then
        (parseDigits rest).map (fun p => (.num (-(p.1 : Int)), p.2))
      else if c = '[' then
        match rest with
        | [] => none
        | r :: rest' =>
            if r = ']' then some (.arr .nil, rest')
            else (pE (r :: rest')).map (fun p => (.arr p.1, p.2))
      else if c = '\x7b' then
        match rest with
        | [] => none
        | r :: rest' =>
            if r = '\x7d' then some (.obj .nil, rest')
            else (pM (r :: rest')).map (fun p => (.obj p.1, p.2))
      else if c.isDigit then
        (parseDigits (c :: rest)).map (fun p => (.num (p.1 : Int), p.2))
      else none

/-- One step of the array-element parser. -/
def parseElemsBody (pV : List Char → Option (JVal × List Char))
    (pE : List Char → Option (JList × List Char))
    (s : List Char) : Option (JList × List Char) :=
  match pV s with
  | none => none
  | some (v, r) =>
      match r with
      | ']' :: r' => some (.cons v .nil, r')
      | ',' :: r' => (pE r').map (fun p => (.cons v p.1, p.2))
      | _ => none

/-- One step of the object-member parser. -/
def parseMembersBody (pV : List Char → Option (JVal × List Char))
    (pM : List Char → Option (JMembers × List Char))
    (s : List Char) : Option (JMembers × List Char) :=
  match s with
  | '"' :: rest =>
      match parseStrBody rest with
      | none => none
      | some (key, r1) =>
          match r1 with
          | ':' :: r2 =>
              match pV r2 with
              | none => none
              | some (v, r3) =>
                  match r3 with
                  | '\x7d' :: r4 => some (.cons (String.mk key) v .nil, r4)
                  | ',' :: r4 =>
                      (pM r4).map (fun p => (.cons (String.mk key) v p.1, p.2))
                  | _ => none
          | _ => none
  | _ => none

mutual
/-- Fuel-indexed model of `JSON.parse` on one value (no surrounding
whitespace; every text this development feeds it is whitespace-free). -/
def parseVal : Nat → List Char → Option (JVal × List Char)
  | 0, _ => none
  | fuel + 1, s => parseValBody (parseElems fuel) (parseMembers fuel) s
termination_by structural fuel => fuel

/-- Array elements after `[` (nonempty case). -/
def parseElems : Nat → List Char → Option (JList × List Char)
  | 0, _ => none
  | fuel + 1, s => parseElemsBody (parseVal fuel) (parseElems fuel) s
termination_by structural fuel => fuel

/-- Object members after `{` (nonempty case). -/
def parseMembers : Nat → List Char → Option (JMembers × List Char)
  | 0, _ => none
  | fuel + 1, s => parseMembersBody (parseVal fuel) (parseMembers fuel) s
termination_by structural fuel => fuel
end

mutual
/-- Fuel needed by `parseVal` to parse the printed form of a value. -/
def jdepth : JVal → Nat
  | .null | .bool _ | .num _ | .str _ => 1
  | .arr xs => 1 + jdepthList xs
  | .obj fs => 1 + jdepthMembers fs

/-- Fuel needed for a list of array elements. -/
def jdepthList : JList → Nat
  | .nil => 0
  | .cons x xs => 1 + jdepth x + jdepthList xs

/-- Fuel needed for a list of object members. -/
def jdepthMembers : JMembers → Nat
  | .nil => 0
  | .cons _ v fs => 1 + jdepth v + jdepthMembers fs
end

/-- Model of the `JSON.parse` builtin: parse one value consuming the whole
text, `none` for a thrown `SyntaxError`. -/
def jsonParse (s : String) : Option JVal :=
  match parseVal (2 * s.data.length + 2) s.data with
  | some (v, []) => some v
  | _ => none

/-- The remainder of the input is not immediately mistakable for more
digits: empty, or starting with a non-digit character.  This always holds
between a printed number and the following JSON punctuation. -/
def noDigitHead : List Char → Prop
  | [] => True
  | c :: _ => c.isDigit = false

/-! ## Plugin metadata extraction (`app.js` lines 961–975).

`extractPluginMetadata` matches the plugin source against the regular
expression `/\/\*\s*@plugin\s*(\x7b[\s\S]*?\x7d)\s*\*\//` and feeds the
captured group to `JSON.parse`, returning `null` when the marker is absent
or the payload throws.  The scanner below implements exactly that regex:
leftmost match position, greedy whitespace, lazy body group. -/

/-- JavaScript `\s` on the characters relevant here. -/
def isWsC (c : Char) : Bool :=
  c = ' ' || c = '\t' || c = '\n' || c = '\r' || c = '\x0b' || c = '\x0c'

/-- Greedy `\s*`. -/
def dropWs : List Char → List Char
  | [] => []
  | c :: rest => if isWsC c then dropWs rest else c :: rest

/-- Literal-word matching; `none` when the input does not continue with the
expected word. -/
def stripLead : List Char → List Char → Option (List Char)
  | [], s => some s
  | _ :: _, [] => none
  | p :: ps, c :: cs => if c = p then stripLead ps cs else none

/-- Does `\s*\*\/` match here?  This decides where the lazy body group may
stop. -/
def checkTail (r : List Char) : Bool :=
  match dropWs r with
  | c1 :: c2 :: _ => c1 = '*' && c2 = '/'
  | _ => false

/-- Lazy scan for the closing brace of the metadata group: the group ends at
the first `\x7d` whose suffix matches `\s*\*\/`; any earlier `\x7d` is kept
inside the group.  Returns the group's interior. -/
def findCloser : List Char → Option (List Char)
  | [] => none
  | c :: rest =>
      if c = '\x7d' && checkTail rest then some []
      else (findCloser rest).map (fun g => c :: g)

/-- Attempt the regex match at the current position; returns the captured
group (braces included). -/
def matchAt : List Char → Option (List Char)
  | c1 :: c2 :: rest =>
      if c1 = '/' ∧ c2 = '*' then
        match stripLead "@plugin".data (dropWs rest) with
        | none => none
        | some r2 =>
            match dropWs r2 with
            | c :: r4 =>
                if c = '\x7b' then
                  (findCloser r4).map (fun inner => '\x7b' :: (inner ++ ['\x7d']))
                else none
            | [] => none
      else none
  | _ => none

/-- Leftmost regex match over the whole text, as `String.prototype.match`
performs it. -/
def scanMatch : List Char → Option (List Char)
  | [] => none
  | c :: rest =>
      match matchAt (c :: rest) with
      | some g => some g
      | none => scanMatch rest

/-- Whether the text contains the two-character comment opener `/*`
anywhere; its absence guarantees the regex cannot match earlier. -/
def hasStart : List Char → Bool
  | c1 :: c2 :: rest => (c1 = '/' && c2 = '*') || hasStart (c2 :: rest)
  | _ => false

/-- Model of `extractPluginMetadata(content)` of `app.js`: regex match, then
`JSON.parse` of the captured group inside `try`, `null` on absence or parse
error.  The `JSON.parse` builtin is passed in as `jp` so the claim can be
stated for the model `jsonParse` and for arbitrary parse outcomes. -/
def extractPluginMetadata (jp : String → Option JVal) (content : String) :
    Option JVal :=
  match scanMatch content.data with
  | some g => jp (String.mk g)
  | none => none

/-- Model of `loadPluginMetadata(pluginPath)` of `app.js`: read the file (null on
failure), extract metadata, and register it in the `plugins` map only when
extraction produced a value.  `readF` models `window.electronAPI.readFile`
(resolves to the content or to null, never throws). -/
def loadPluginMetadata (jp : String → Option JVal)
    (readF : String → Option String) (dir path : String)
    (plugins : List (String × JVal)) : List (String × JVal) :=
  match readF (dir ++ "/" ++ path) with
  | none => plugins
  | some content =>
      match extractPluginMetadata jp content with
      | some m => setA plugins path m
      | none => plugins

/-- Interior of the metadata payload of the round-trip scenario. -/
def payloadInner : String :=
  "\"name\":\"X\",\"version\":\"1.0.0\",\"author\":\"A\",\"description\":\"D\""

/-- The well-formed metadata payload of the round-trip scenario. -/
def samplePayload : String := "\x7b" ++ payloadInner ++ "\x7d"

/-- A well-formed metadata block around `samplePayload`. -/
def sampleBlock : String := "/* @plugin " ++ samplePayload ++ " */"

/-- The metadata record the scenario expects: exactly the four fields. -/
def sampleMeta : JVal :=
  .obj (.cons "name" (.str "X") (.cons "version" (.str "1.0.0")
    (.cons "author" (.str "A") (.cons "description" (.str "D") .nil))))

/-! ## The sampler/broadcaster of `main.js`.

`getSystemData` (lines 125–166) issues the four provider sub-queries with
`Promise.all`, assembles the snapshot record, and returns `null` from the
`catch` when any sub-query rejects.  Provider results are modelled as
`Except` values (rejection carries the error message); JavaScript numbers
as rationals; `mem.percentage` keeps the `toFixed(1)` string, so its field
is a `JVal` to make the string/number distinction expressible. -/

/-- One entry of `systeminformation.currentLoad().cpus`. -/
structure CpuCoreInfo where
  temperature : Option ℚ
deriving DecidableEq

/-- Result of `systeminformation.currentLoad()`. -/
structure CurrentLoadInfo where
  currentLoad : ℚ
  cpus : List CpuCoreInfo
deriving DecidableEq

/-- Result of `systeminformation.mem()`. -/
structure MemInfo where
  total : ℚ
  used : ℚ
  free : ℚ
  active : ℚ
  available : ℚ
deriving DecidableEq

/-- One entry of `systeminformation.fsSize()`. -/
structure FsSizeEntry where
  fs : String
  size : ℚ
  used : ℚ
  available : ℚ
  use : ℚ
deriving DecidableEq

/-- One entry of `systeminformation.networkStats()`. -/
structure NetStatEntry where
  rx_sec : ℚ
  tx_sec : ℚ
  connections : ℚ
deriving DecidableEq

/-- The `cpu` sub-field of the snapshot. -/
structure CpuOut where
  load : ℚ
  cores : ℕ
  temperature : ℚ
deriving DecidableEq

/-- The `memory` sub-field of the snapshot; `percentage` is whatever
JavaScript value `((mem.used / mem.total) * 100).toFixed(1)` produces. -/
structure MemOut where
  total : ℚ
  used : ℚ
  free : ℚ
  active : ℚ
  available : ℚ
  percentage : JVal
deriving DecidableEq

/-- One mapped entry of the `disk` sub-field. -/
structure DiskOut where
  fs : String
  size : ℚ
  used : ℚ
  available : ℚ
  percentage : ℚ
deriving DecidableEq

/-- The `network` sub-field of the snapshot. -/
structure NetOut where
  rx_sec : ℚ
  tx_sec : ℚ
  connections : ℚ
deriving DecidableEq

/-- The snapshot record built by `getSystemData`. -/
structure Snapshot where
  cpu : CpuOut
  memory : MemOut
  disk : List DiskOut
  network : NetOut
  timestamp : ℤ
deriving DecidableEq

/-- Decimal string of a natural number. -/
def natToString (n : ℕ) : String := String.mk (natDigitsChars n)

/-- Model of `Number.prototype.toFixed(1)` on the sampler's exact rational
values: round half away from zero to one decimal place and print
`intpart.decimal`. -/
def toFixed1 (q : ℚ) : String :=
  let n : ℕ := (Rat.floor (|q| * 10 + 1 / 2)).toNat
  let core := natToString (n / 10) ++ "." ++ natToString (n % 10)
  if q < 0 then "-" ++ core else core

/-- Model of `cpu` assembly of `getSystemData`: `cpu.currentLoad`, `cpu.cpus.length`,
`cpu.cpus[0]?.temperature || 0`. -/
def cpuOut (c : CurrentLoadInfo) : CpuOut :=
  { load := c.currentLoad
    cores := c.cpus.length
    temperature := ((c.cpus.head?).bind (fun core => core.temperature)).getD 0 }

/-- Model of `memory` assembly of `getSystemData`; `percentage` is the `toFixed(1)`
string. -/
def memOut (m : MemInfo) : MemOut :=
  { total := m.total
    used := m.used
    free := m.free
    active := m.active
    available := m.available
    percentage := .str (toFixed1 (m.used / m.total * 100)) }

/-- One `disk.map` entry of `getSystemData`. -/
def diskOut (d : FsSizeEntry) : DiskOut :=
  { fs := d.fs
    size := d.size
    used := d.used
    available := d.available
    percentage := d.use }

/-- Model of `network` assembly of `getSystemData`:
`network[0]?.rx_sec || 0` and friends. -/
def netOut (n : List NetStatEntry) : NetOut :=
  { rx_sec := ((n.head?).map (fun e => e.rx_sec)).getD 0
    tx_sec := ((n.head?).map (fun e => e.tx_sec)).getD 0
    connections := ((n.head?).map (fun e => e.connections)).getD 0 }

/-- Model of `getSystemData()` of `main.js`: `Promise.all` of the four sub-queries —
any rejection reaches the `catch`, which logs and returns `null` (`none`);
when all four resolve, the full snapshot record is assembled. -/
def getSystemData (cpu : Except String CurrentLoadInfo)
    (mem : Except String MemInfo) (disk : Except String (List FsSizeEntry))
    (network : Except String (List NetStatEntry)) (now : ℤ) : Option Snapshot :=
  match cpu, mem, disk, network with
  | .ok c, .ok m, .ok d, .ok n =>
      some { cpu := cpuOut c, memory := memOut m, disk := d.map diskOut,
             network := netOut n, timestamp := now }
  | _, _, _, _ => none

/-! ## The monitoring timer (`main.js` lines 103–123).

`startSystemMonitoring` clears the existing interval before installing a
new one; `stopSystemMonitoring` clears and nulls it.  The state carries the
set of live interval timers, the fresh-id counter of the timer facility,
and the `systemMonitorInterval` module variable. -/

/-- One live `setInterval` timer. -/
structure TimerEntry where
  id : ℕ
  interval : ℕ
deriving DecidableEq

/-- The timer-relevant state of the main process. -/
structure MonState where
  timers : List TimerEntry
  nextId : ℕ
  monRef : Option ℕ
deriving DecidableEq

/-- Model of `clearInterval(i)`: the timer with id `i` stops firing. -/
def clearIntervalM (i : ℕ) (s : MonState) : MonState :=
  { s with timers := s.timers.filter (fun t => t.id ≠ i) }

/-- Model of `setInterval(cb, interval)`: installs a fresh periodic timer and
returns its id. -/
def setIntervalM (interval : ℕ) (s : MonState) : MonState × ℕ :=
  ({ timers := s.timers ++ [⟨s.nextId, interval⟩]
     nextId := s.nextId + 1
     monRef := s.monRef }, s.nextId)

/-- Model of `startSystemMonitoring()` of `main.js`, with the configured interval as
argument: clears the previous interval if one is registered, then installs
the new one and remembers its id. -/
def startSystemMonitoring (interval : ℕ) (s : MonState) : MonState :=
  let s1 := match s.monRef with
    | some i => clearIntervalM i s
    | none => s
  let (s2, id) := setIntervalM interval s1
  { s2 with monRef := some id }

/-- Model of `stopSystemMonitoring()` of `main.js`. -/
def stopSystemMonitoring (s : MonState) : MonState :=
  match s.monRef with
  | some i => { clearIntervalM i s with monRef := none }
  | none => s

/-- Well-formedness of the timer state: every live timer is the one the
module variable refers to (so there is at most one), and live ids are in
the past of the fresh-id counter. -/
def MonInv (s : MonState) : Prop :=
  (∀ t ∈ s.timers, s.monRef = some t.id ∧ t.id < s.nextId) ∧
    s.timers.length ≤ 1

/-- The body of the `setInterval` callback (lines 108–115): it sends
whatever `getSystemData` resolved to (the snapshot, or `null` after an
internal failure) and touches no timer; its own `try`/`catch` swallows any
send error, so the state of the timers is returned unchanged. -/
def monitorTick (result : Option Snapshot) (s : MonState) :
    MonState × Option Snapshot :=
  (s, result)

/-- The mocked provider scenario of the spec: cpu load 42, memory
total 1000 / used 500, one disk at use 70, one interface at rx 100 / tx 50. -/
def scenarioSnapshot : Option Snapshot :=
  getSystemData (.ok ⟨42, []⟩) (.ok ⟨1000, 500, 500, 500, 500⟩)
    (.ok [⟨"C:", 1000, 700, 300, 70⟩]) (.ok [⟨100, 50, 0⟩]) 0

/-! ## The plugin system of `app.js` (class `PluginSystem`).

State: the `plugins` metadata map, the `pluginConfigs` map (modelled by the
`enabled` flag of each entry), the `activePlugins` set, the plugin tabs
present in the DOM (`removePluginTab` removes the tab registered under the
plugin's path), and the last written content of `plugin-config.json`
(`diskConfigs`).  Operations additionally emit an event trace recording
the observable steps in program order. -/

/-- Observable events of a plugin-system operation, in program order. -/
inductive PEv : Type where
  | configSet (path : String) (enabled : Bool) : PEv
  | persist : PEv
  | removeTab (path : String) : PEv
  | activeAdd (path : String) : PEv
  | activeRemove (path : String) : PEv
  | metaDelete (path : String) : PEv
  | configDelete (path : String) : PEv
  | logError (site : String) : PEv
  | notify (message : String) : PEv
  | render : PEv
deriving DecidableEq

/-- The mutable state of the `PluginSystem` instance (plus the persisted
config document). -/
structure PS : Type where
  plugins : List (String × JVal)
  pluginConfigs : List (String × Bool)
  activePlugins : List String
  tabs : List String
  diskConfigs : Option (List (String × Bool))
deriving DecidableEq

/-- What executing a plugin module does, as observable to `loadPlugin`:
the top-level code throws, exports no `init`, exports an `init` that
throws when awaited, or exports an `init` that resolves. -/
inductive ModuleOutcome : Type where
  | throwsTop : ModuleOutcome
  | noInit : ModuleOutcome
  | initThrows : ModuleOutcome
  | initOk : ModuleOutcome
deriving DecidableEq

/-- The environment a load operates in: `readFile` models the
`window.electronAPI.readFile` IPC call (resolves to the content, or to
null — the main-process handler catches read errors), and `runModule`
models what executing the module's source does. -/
structure PluginEnv : Type where
  readFile : String → Option String
  runModule : String → ModuleOutcome

/-- The plugin directory configured in the constructor. -/
def pluginDirectory : String := "plugins"

/-- Model of `createPluginModule(content, metadata)` of `app.js` lines 1010–1032:
executes the module text inside `try`; a throw is caught, logged, and
turns into `null`.  Returns the module outcome when execution succeeds. -/
def createPluginModule (env : PluginEnv) (content : String) :
    Option ModuleOutcome × List PEv :=
  match env.runModule content with
  | .throwsTop => (none, [.logError "createPluginModule"])
  | .noInit => (some .noInit, [])
  | .initThrows => (some .initThrows, [])
  | .initOk => (some .initOk, [])

/-- Model of `loadPlugin(pluginPath, metadata)` of `app.js` lines 992–1005: read the
source, build the module, and if it exposes `init`, await it and only then
add the path to `activePlugins`; the outer `catch` logs any exception
(only `init` can throw here) and changes nothing. -/
def loadPlugin (env : PluginEnv) (path : String) (s : PS) : PS × List PEv :=
  match env.readFile (pluginDirectory ++ "/" ++ path) with
  | none => (s, [])
  | some content =>
      match createPluginModule env content with
      | (none, evs) => (s, evs)
      | (some .noInit, evs) => (s, evs)
      | (some .initThrows, evs) => (s, evs ++ [.logError "loadPlugin"])
      | (some .initOk, evs) =>
          (if path ∈ s.activePlugins then s
           else { s with activePlugins := s.activePlugins ++ [path] },
           evs ++ [.activeAdd path])
      | (some .throwsTop, evs) => (s, evs)

/-- Model of `unloadPlugin(pluginPath)` of `app.js` lines 1159–1171: remove the tab
registered under the path and delete the path from the active set. -/
def unloadPlugin (path : String) (s : PS) : PS × List PEv :=
  ({ s with
      tabs := s.tabs.filter (fun t => t ≠ path)
      activePlugins := s.activePlugins.filter (fun p => p ≠ path) },
   [.removeTab path, .activeRemove path])

/-- Model of `savePluginConfigs()` of `app.js` lines 883–891: serialize the current
`pluginConfigs` map and write it to `plugin-config.json`. -/
def savePluginConfigs (s : PS) : PS × List PEv :=
  ({ s with diskConfigs := some s.pluginConfigs }, [.persist])

/-- Model of `togglePlugin(pluginPath, enabled)` of `app.js` lines 1128–1154:
update the in-memory config entry, then load (when enabling and metadata
is known) or unload (when disabling), then persist, re-render and show the
success notification. -/
def togglePlugin (env : PluginEnv) (path : String) (enabled : Bool)
    (s : PS) : PS × List PEv :=
  let s1 : PS := { s with pluginConfigs := setA s.pluginConfigs path enabled }
  let step : PS × List PEv :=
    if enabled then
      match lookupA s1.plugins path with
      | some _ => loadPlugin env path s1
      | none => (s1, [])
    else unloadPlugin path s1
  let s2 := step.1
  let s3 := savePluginConfigs s2
  (s3.1, .configSet path enabled :: (step.2 ++ s3.2 ++
    [.render, .notify ("Plugin " ++ (if enabled then "enabled" else "disabled"))]))

/-- Model of `deletePlugin(pluginPath)` of `app.js` lines 1760–1769, in the
confirmed branch: unload, erase the metadata entry and the config entry,
persist, re-render, notify.  The unconfirmed branch does nothing. -/
def deletePlugin (confirmed : Bool) (path : String) (s : PS) :
    PS × List PEv :=
  if confirmed then
    let u := unloadPlugin path s
    let s2 : PS := { u.1 with
      plugins := removeA u.1.plugins path
      pluginConfigs := removeA u.1.pluginConfigs path }
    let s3 := savePluginConfigs s2
    (s3.1, u.2 ++ [.metaDelete path, .configDelete path] ++ s3.2 ++
      [.render, .notify "Plugin deleted"])
  else (s, [])

/-- The states at which the delete sequence can be observed by other code
(or interrupted): before anything ran, at the `await` after
`unloadPlugin`, at the suspension inside `savePluginConfigs` (both map
deletions have run synchronously by then), and after the write completed.
The two synchronous `Map.delete` calls of lines 1763–1764 admit no
intermediate observation point. -/
def deletePluginObservable (path : String) (s : PS) : List PS :=
  let u := unloadPlugin path s
  let s2 : PS := { u.1 with
    plugins := removeA u.1.plugins path
    pluginConfigs := removeA u.1.pluginConfigs path }
  let s3 := savePluginConfigs s2
  [s, u.1, s2, s3.1]

/-- The module-resolution function injected into plugins as `require`
(`app.js` lines 1014–1021): the whitelist. -/
def allowedModules : List String := ["chart.js"]

/-- Model of `moduleRequire` itself: returns `window[module] || {}` for an allowed
module, throws `Module ... not allowed in plugins` otherwise.  `win`
models the lookup of the module name on `window`. -/
def moduleRequire (win : String → Option JVal) (m : String) :
    Except String JVal :=
  if allowedModules.contains m then
    .ok ((win m).getD (.obj .nil))
  else
    .error ("Module " ++ m ++ " not allowed in plugins")

/-- The parameter names bound by `new Function('exports', 'require', 'api',
content)` in `createPluginModule` — exactly the names injected into the
module's top-level code. -/
def pluginInjectedNames : List String := ["exports", "require", "api"]

/-- A `PluginSystem` state with nothing registered. -/
def psEmpty : PS := ⟨[], [], [], [], none⟩

/-- Whether a trace surfaced a UI notification. -/
def hasNotify (evs : List PEv) : Bool :=
  evs.any (fun e => match e with | .notify _ => true | _ => false)

/-- An exception is raised somewhere inside `loadPlugin`: the module's
top-level code throws, or its awaited `init` rejects. -/
def loadRaises (env : PluginEnv) (path : String) : Prop :=
  ∃ c, env.readFile (pluginDirectory ++ "/" ++ path) = some c ∧
    (env.runModule c = .throwsTop ∨ env.runModule c = .initThrows)

/-- Is this event the on-disk persistence step (`savePluginConfigs`)? -/
def isPersist : PEv → Bool
  | .persist => true
  | _ => false

/-- Is this event part of the load/unload step (active-set or tab
changes)? -/
def isLoadUnload : PEv → Bool
  | .activeAdd _ => true
  | .activeRemove _ => true
  | .removeTab _ => true
  | _ => false

/-- The claim's ordering property on a trace: if a load/unload action
occurs, some persistence event precedes the first such action. -/
def persistsBeforeAction (t : List PEv) : Bool :=
  match t.findIdx? isLoadUnload with
  | none => true
  | some j =>
      match t.findIdx? isPersist with
      | some i => decide (i < j)
      | none => false

/-! ## The chart retention window (`app.js` lines 363–379).

`updateChart` pushes one label and one value and, when more than 20 labels
are held, shifts the oldest label and value off the front. -/

/-- The mutable chart data: parallel label and value arrays. -/
structure ChartData (α : Type) : Type where
  labels : List String
  values : List α
deriving DecidableEq

/-- Model of `updateChart(chart, value)`: push, then shift when over 20 points. -/
def updateChart {α : Type} (c : ChartData α) (label : String) (v : α) :
    ChartData α :=
  let ls := c.labels ++ [label]
  let ds := c.values ++ [v]
  if 20 < ls.length then ⟨ls.tail, ds.tail⟩ else ⟨ls, ds⟩

/-- A chart freshly created by `initCharts` (`labels: []`, `data: []`)
after a sequence of pushes. -/
def chartRun {α : Type} (pushes : List (String × α)) : ChartData α :=
  pushes.foldl (fun c p => updateChart c p.1 p.2) ⟨[], []⟩

/-! ## Plugin key-value storage (`app.js` lines 1283–1301).

`setPluginStorage` writes `JSON.stringify(value)` under the prefixed key
`plugin_${key}` into `localStorage` inside `try`, returning `true` on
success and `false` when `setItem` throws (quota); `getPluginStorage`
reads the prefixed key, returns `null` for a missing (or empty, by the
truthiness check) entry, and parses the stored string inside `try`,
returning `null` on a parse error.  `localStorage` is modelled as an
association list with a byte quota. -/

/-- Total size of a stored map, for the quota model. -/
def storageSize (st : List (String × String)) : Nat :=
  (st.map (fun p => p.1.length + p.2.length)).sum

/-- Model of `localStorage.setItem`: stores the pair unless the quota
would be exceeded, in which case it throws (`none`). -/
def localStorageSet (quota : Nat) (st : List (String × String))
    (k v : String) : Option (List (String × String)) :=
  if storageSize (setA st k v) ≤ quota then some (setA st k v) else none

/-- Model of `setPluginStorage(key, value)` of `app.js`. -/
def setPluginStorage (quota : Nat) (st : List (String × String))
    (key : String) (value : JVal) : List (String × String) × Bool :=
  match localStorageSet quota st ("plugin_" ++ key) (jsonStringify value) with
  | some st' => (st', true)
  | none => (st, false)

/-- Model of `getPluginStorage(key)` of `app.js`. -/
def getPluginStorage (st : List (String × String)) (key : String) :
    Option JVal :=
  match lookupA st ("plugin_" ++ key) with
  | some stored => if stored.isEmpty then none else jsonParse stored
  | none => none

theorem lookupA_setA_self {β : Type} (l : List (String × β)) (k : String)
    (v : β) : lookupA (setA l k v) k = some v := by
  induction l with
  | nil => simp [lookupA, setA]
  | cons p rest ih =>
      obtain ⟨k', v'⟩ := p
      by_cases h : k' = k
      · simp [lookupA, setA, h]
      · simp [lookupA, setA, h, ih]

theorem lookupA_setA_other {β : Type} (l : List (String × β)) (k k' : String)
    (v : β) (h : k ≠ k') : lookupA (setA l k v) k' = lookupA l k' := by
  induction l with
  | nil => simp [lookupA, setA, h]
  | cons p rest ih =>
      obtain ⟨k₀, v₀⟩ := p
      by_cases h0 : k₀ = k
      · subst h0
        simp [lookupA, setA, h]
      · simp only [setA, if_neg h0, lookupA]
        by_cases h1 : k₀ = k'
        · simp [h1]
        · simp [h1, ih]

theorem lookupA_removeA_self {β : Type} (l : List (String × β)) (k : String) :
    lookupA (removeA l k) k = none := by
  induction l with
  | nil => simp [lookupA, removeA]
  | cons p rest ih =>
      obtain ⟨k', v'⟩ := p
      by_cases h : k' = k
      · simpa [removeA, h] using ih
      · simpa [removeA, List.filter, h, lookupA] using ih

theorem natDigitsCharsAux_eq (fuel : Nat) : ∀ n, n ≤ fuel →
    natDigitsCharsAux fuel n = ((Nat.digits 10 n).map Nat.digitChar).reverse := by
  induction fuel with
  | zero =>
      intro n h
      interval_cases n
      simp [natDigitsCharsAux]
  | succ fuel ih =>
      intro n h
      by_cases h0 : n = 0
      · subst h0
        simp [natDigitsCharsAux]
      · rw [natDigitsCharsAux, if_neg h0, ih (n / 10) (by omega),
          Nat.digits_def' (by norm_num : (1:ℕ) < 10) (Nat.pos_of_ne_zero h0)]
        simp

theorem natDigitsChars_eq_digits (n : Nat) :
    natDigitsChars n =
      if n = 0 then ['0'] else ((Nat.digits 10 n).map Nat.digitChar).reverse := by
  by_cases h : n = 0
  · simp [natDigitsChars, h]
  · simp [natDigitsChars, h, natDigitsCharsAux_eq n n le_rfl]

theorem digitChar_facts : ∀ d : Nat, d < 10 →
    (Nat.digitChar d).isDigit = true ∧ (Nat.digitChar d).toNat - 48 = d := by
  decide

theorem parseDigitsAux_spec (ds : List Nat) (h : ∀ d ∈ ds, d < 10)
    (acc : Nat) (rest : List Char) (hrest : noDigitHead rest) :
    parseDigitsAux acc (ds.map Nat.digitChar ++ rest) =
      (ds.foldl (fun a d => a * 10 + d) acc, rest) := by
  induction ds generalizing acc with
  | nil =>
      cases rest with
      | nil => simp [parseDigitsAux]
      | cons c cs =>
          simp only [noDigitHead] at hrest
          simp [parseDigitsAux, hrest]
  | cons d ds ih =>
      have hd := digitChar_facts d (h d (by simp))
      have ih' := ih (fun x hx => h x (by simp [hx])) (acc * 10 + d)
      simp only [List.map_cons, List.cons_append, parseDigitsAux, hd.1, if_pos,
        List.append_eq] at ih' ⊢
      rw [hd.2, ih']
      simp

theorem foldl_reverse_digits (l : List Nat) (acc : Nat) :
    l.reverse.foldl (fun a d => a * 10 + d) acc =
      acc * 10 ^ l.length + Nat.ofDigits 10 l := by
  induction l generalizing acc with
  | nil => simp
  | cons d ds ih =>
      simp only [List.reverse_cons, List.foldl_append, List.foldl_cons,
        List.foldl_nil, ih, Nat.ofDigits_cons, List.length_cons]
      ring

theorem parseDigits_natDigitsChars (n : Nat) (rest : List Char)
    (hrest : noDigitHead rest) :
    parseDigits (natDigitsChars n ++ rest) = some (n, rest) := by
  by_cases h0 : n = 0
  · subst h0
    cases rest with
    | nil => simp [natDigitsChars, parseDigits, parseDigitsAux]
    | cons c cs =>
        simp only [noDigitHead] at hrest
        simp [natDigitsChars, parseDigits, parseDigitsAux, hrest]
  · have hne : Nat.digits 10 n ≠ [] := Nat.digits_ne_nil_iff_ne_zero.mpr h0
    have hlt : ∀ d ∈ Nat.digits 10 n, d < 10 :=
      fun d hd => Nat.digits_lt_base (by norm_num) hd
    rw [natDigitsChars_eq_digits, if_neg h0, ← List.map_reverse]
    obtain ⟨d, ds, hds⟩ : ∃ d ds, (Nat.digits 10 n).reverse = d :: ds := by
      cases hrev : (Nat.digits 10 n).reverse with
      | nil => exact absurd (by simpa using congrArg List.reverse hrev) hne
      | cons d ds => exact ⟨d, ds, rfl⟩
    have hmem : ∀ x ∈ d :: ds, x < 10 := by
      intro x hx
      exact hlt x (by simpa using (hds ▸ List.mem_reverse.mpr
        (by simp [hds, hx]) : x ∈ (Nat.digits 10 n).reverse.reverse))
    have hd := digitChar_facts d (hmem d (by simp))
    rw [hds]
    simp only [List.map, List.cons_append, parseDigits, hd.1, if_pos]
    rw [hd.2, parseDigitsAux_spec ds (fun x hx => hmem x (by simp [hx])) d rest hrest]
    have hfold : (d :: ds).foldl (fun a x => a * 10 + x) 0 = n := by
      have h1 : (d :: ds).foldl (fun a x => a * 10 + x) 0 =
          (Nat.digits 10 n).reverse.foldl (fun a x => a * 10 + x) 0 := by rw [hds]
      rw [h1, foldl_reverse_digits (Nat.digits 10 n) 0]
      simp [Nat.ofDigits_digits]
    simp only [List.foldl_cons] at hfold
    simpa using hfold

theorem hexVal_hexChar : ∀ m : Nat, m < 16 → hexVal (hexChar m) = some m := by
  decide

theorem parseStrBody_escStr (s : List Char) (rest : List Char) :
    parseStrBody (escStr s ++ ('"' :: rest)) = some (s, rest) := by
  induction s with
  | nil =>
      rw [escStr, List.nil_append, parseStrBody.eq_def]
      simp
  | cons c cs ih =>
      by_cases h1 : c = '"'
      · subst h1
        have he : escStr ('"' :: cs) = '\\' :: '"' :: escStr cs := by
          simp [escStr, escChar]
        rw [he, List.cons_append, List.cons_append, parseStrBody.eq_def]
        simp [ih]
      · by_cases h2 : c = '\\'
        · subst h2
          have he : escStr ('\\' :: cs) = '\\' :: '\\' :: escStr cs := by
            simp [escStr, escChar]
          rw [he, List.cons_append, List.cons_append, parseStrBody.eq_def]
          simp [ih]
        · by_cases h3 : c = '\n'
          · subst h3
            have he : escStr ('\n' :: cs) = '\\' :: 'n' :: escStr cs := by
              simp [escStr, escChar]
            rw [he, List.cons_append, List.cons_append, parseStrBody.eq_def]
            simp [ih]
          · by_cases h4 : c = '\t'
            · subst h4
              have he : escStr ('\t' :: cs) = '\\' :: 't' :: escStr cs := by
                simp [escStr, escChar]
              rw [he, List.cons_append, List.cons_append, parseStrBody.eq_def]
              simp [ih]
            · by_cases h5 : c = '\r'
              · subst h5
                have he : escStr ('\r' :: cs) = '\\' :: 'r' :: escStr cs := by
                  simp [escStr, escChar]
                rw [he, List.cons_append, List.cons_append, parseStrBody.eq_def]
                simp [ih]
              · by_cases h6 : c = '\x08'
                · subst h6
                  have he : escStr ('\x08' :: cs) = '\\' :: 'b' :: escStr cs := by
                    simp [escStr, escChar]
                  rw [he, List.cons_append, List.cons_append, parseStrBody.eq_def]
                  simp [ih]
                · by_cases h7 : c = '\x0c'
                  · subst h7
                    have he : escStr ('\x0c' :: cs) = '\\' :: 'f' :: escStr cs := by
                      simp [escStr, escChar]
                    rw [he, List.cons_append, List.cons_append, parseStrBody.eq_def]
                    simp [ih]
                  · by_cases h8 : c.toNat < 32
                    · have hdiv : c.toNat / 16 < 16 := by omega
                      have hmod : c.toNat % 16 < 16 := Nat.mod_lt _ (by norm_num)
                      have hv0 : hexVal '0' = some 0 := by decide
                      have he : escStr (c :: cs) = '\\' :: 'u' :: '0' :: '0' ::
                          hexChar (c.toNat / 16) :: hexChar (c.toNat % 16) ::
                          escStr cs := by
                        simp [escStr, escChar, h1, h2, h3, h4, h5, h6, h7, h8]
                      rw [he]
                      simp only [List.cons_append]
                      rw [parseStrBody.eq_def]
                      simp only [reduceIte, hv0, hexVal_hexChar _ hdiv,
                        hexVal_hexChar _ hmod, ih, Option.map_some]
                      have hc : Char.ofNat (c.toNat / 16 * 16 + c.toNat % 16) = c := by
                        have harith : c.toNat / 16 * 16 + c.toNat % 16 = c.toNat := by
                          omega
                        rw [harith, Char.ofNat_toNat]
                      simp [hc]
                    · have hne : escStr (c :: cs) = c :: escStr cs := by
                        simp [escStr, escChar, h1, h2, h3, h4, h5, h6, h7, h8]
                      rw [hne, List.cons_append, parseStrBody.eq_def]
                      simp [h1, h2, ih]

theorem strVal_null : strVal .null = ['n', 'u', 'l', 'l'] := by rw [strVal]

theorem strVal_true : strVal (.bool true) = ['t', 'r', 'u', 'e'] := by
  rw [strVal]
  rfl

theorem strVal_false : strVal (.bool false) = ['f', 'a', 'l', 's', 'e'] := by
  rw [strVal]
  rfl

theorem strVal_num (n : Int) : strVal (.num n) = intChars n := by rw [strVal]

theorem strVal_str (s : String) :
    strVal (.str s) = '"' :: (escStr s.data ++ ['"']) := by rw [strVal]

theorem strVal_arr_nil : strVal (.arr .nil) = ['[', ']'] := by rw [strVal]

theorem strVal_arr_cons (x : JVal) (xs : JList) :
    strVal (.arr (.cons x xs)) = '[' :: strElems x xs := by rw [strVal]

theorem strVal_obj_nil : strVal (.obj .nil) = ['\x7b', '\x7d'] := by rw [strVal]

theorem strVal_obj_cons (k : String) (v : JVal) (fs : JMembers) :
    strVal (.obj (.cons k v fs)) = '\x7b' :: strMembers k v fs := by rw [strVal]

theorem strElems_nil (x : JVal) : strElems x .nil = strVal x ++ [']'] := by
  rw [strElems]

theorem strElems_cons (x y : JVal) (ys : JList) :
    strElems x (.cons y ys) = strVal x ++ (',' :: strElems y ys) := by
  rw [strElems]

theorem strMembers_nil (k : String) (v : JVal) :
    strMembers k v .nil =
      ('"' :: (escStr k.data ++ ['"', ':'])) ++ (strVal v ++ ['\x7d']) := by
  rw [strMembers]

theorem strMembers_cons (k : String) (v : JVal) (k' : String) (v' : JVal)
    (fs' : JMembers) :
    strMembers k v (.cons k' v' fs') =
      ('"' :: (escStr k.data ++ ['"', ':'])) ++
        (strVal v ++ (',' :: strMembers k' v' fs')) := by
  rw [strMembers]

theorem natDigitsChars_ne_nil (m : Nat) : natDigitsChars m ≠ [] := by
  by_cases h : m = 0
  · simp [natDigitsChars, h]
  · have hne : Nat.digits 10 m ≠ [] := Nat.digits_ne_nil_iff_ne_zero.mpr h
    simp [natDigitsChars_eq_digits, h, hne]

theorem natDigitsChars_digit (m : Nat) : ∀ c ∈ natDigitsChars m, c.isDigit = true := by
  intro c hc
  by_cases h : m = 0
  · simp [natDigitsChars, h] at hc
    subst hc
    decide
  · simp only [natDigitsChars_eq_digits, if_neg h, List.mem_reverse,
      List.mem_map] at hc
    obtain ⟨d, hd, rfl⟩ := hc
    exact (digitChar_facts d (Nat.digits_lt_base (by norm_num) hd)).1

theorem digit_not_special (c : Char) (h : c.isDigit = true) :
    c ≠ 'n' ∧ c ≠ 't' ∧ c ≠ 'f' ∧ c ≠ '"' ∧ c ≠ '-' ∧ c ≠ '[' ∧ c ≠ '\x7b' := by
  refine ⟨?_, ?_, ?_, ?_, ?_, ?_, ?_⟩ <;> (rintro rfl; simp [Char.isDigit] at h)

theorem parseVal_null_eq (fuel : Nat) (r : List Char) :
    parseVal (fuel + 1) ('n' :: 'u' :: 'l' :: 'l' :: r) = some (.null, r) := by
  simp [parseVal, parseValBody]

theorem parseVal_true_eq (fuel : Nat) (r : List Char) :
    parseVal (fuel + 1) ('t' :: 'r' :: 'u' :: 'e' :: r) = some (.bool true, r) := by
  simp [parseVal, parseValBody]

theorem parseVal_false_eq (fuel : Nat) (r : List Char) :
    parseVal (fuel + 1) ('f' :: 'a' :: 'l' :: 's' :: 'e' :: r) =
      some (.bool false, r) := by
  simp [parseVal, parseValBody]

theorem parseVal_str_eq (fuel : Nat) (rest : List Char) :
    parseVal (fuel + 1) ('"' :: rest) =
      (parseStrBody rest).map (fun p => (.str (String.mk p.1), p.2)) := by
  simp [parseVal, parseValBody]

theorem parseVal_neg_eq (fuel : Nat) (rest : List Char) :
    parseVal (fuel + 1) ('-' :: rest) =
      (parseDigits rest).map (fun p => (.num (-(p.1 : Int)), p.2)) := by
  simp [parseVal, parseValBody]

theorem parseVal_arr_nil_eq (fuel : Nat) (rest' : List Char) :
    parseVal (fuel + 1) ('[' :: ']' :: rest') = some (.arr .nil, rest') := by
  simp [parseVal, parseValBody]

theorem parseVal_arr_eq (fuel : Nat) (r : Char) (rest' : List Char)
    (h : r ≠ ']') :
    parseVal (fuel + 1) ('[' :: r :: rest') =
      (parseElems fuel (r :: rest')).map (fun p => (.arr p.1, p.2)) := by
  simp [parseVal, parseValBody, h]

theorem parseVal_obj_nil_eq (fuel : Nat) (rest' : List Char) :
    parseVal (fuel + 1) ('\x7b' :: '\x7d' :: rest') = some (.obj .nil, rest') := by
  simp [parseVal, parseValBody]

theorem parseVal_obj_eq (fuel : Nat) (r : Char) (rest' : List Char)
    (h : r ≠ '\x7d') :
    parseVal (fuel + 1) ('\x7b' :: r :: rest') =
      (parseMembers fuel (r :: rest')).map (fun p => (.obj p.1, p.2)) := by
  simp [parseVal, parseValBody, h]

theorem parseVal_digit_eq (fuel : Nat) (c : Char) (rest : List Char)
    (h : c.isDigit = true) :
    parseVal (fuel + 1) (c :: rest) =
      (parseDigits (c :: rest)).map (fun p => (.num (p.1 : Int), p.2)) := by
  obtain ⟨s1, s2, s3, s4, s5, s6, s7⟩ := digit_not_special c h
  simp [parseVal, parseValBody, s1, s2, s3, s4, s5, s6, s7, h]

theorem parseVal_num (fuel : Nat) (n : Int) (rest : List Char)
    (hrest : noDigitHead rest) :
    parseVal (fuel + 1) (intChars n ++ rest) = some (.num n, rest) := by
  by_cases hneg : n < 0
  · rw [intChars, if_pos hneg, List.cons_append, parseVal_neg_eq]
    have hdig := parseDigits_natDigitsChars n.natAbs rest hrest
    have habs : -(n.natAbs : Int) = n := by omega
    rw [hdig]
    exact congrArg some (by show (JVal.num (-(n.natAbs : Int)), rest) = _; rw [habs])
  · rw [intChars, if_neg hneg]
    obtain ⟨c, cs, hform⟩ : ∃ c cs, natDigitsChars n.natAbs = c :: cs := by
      cases hd : natDigitsChars n.natAbs with
      | nil => exact absurd hd (natDigitsChars_ne_nil _)
      | cons c cs => exact ⟨c, cs, rfl⟩
    have hcdig : c.isDigit = true :=
      natDigitsChars_digit n.natAbs c (by simp [hform])
    rw [hform, List.cons_append, parseVal_digit_eq fuel c _ hcdig]
    have hdig := parseDigits_natDigitsChars n.natAbs rest hrest
    rw [hform, List.cons_append] at hdig
    have habs : (n.natAbs : Int) = n := by omega
    rw [hdig]
    exact congrArg some (by show (JVal.num ((n.natAbs : Int)), rest) = _; rw [habs])

theorem strVal_head (v : JVal) :
    ∃ c cs, strVal v = c :: cs ∧ c ≠ ']' := by
  cases v with
  | null => exact ⟨'n', _, strVal_null, by decide⟩
  | bool b =>
      cases b with
      | true => exact ⟨'t', _, strVal_true, by decide⟩
      | false => exact ⟨'f', _, strVal_false, by decide⟩
  | num n =>
      rw [strVal_num]
      by_cases hneg : n < 0
      · exact ⟨'-', _, by rw [intChars, if_pos hneg], by decide⟩
      · obtain ⟨c, cs, hform⟩ : ∃ c cs, natDigitsChars n.natAbs = c :: cs := by
          cases hd : natDigitsChars n.natAbs with
          | nil => exact absurd hd (natDigitsChars_ne_nil _)
          | cons c cs => exact ⟨c, cs, rfl⟩
        have hcdig : c.isDigit = true :=
          natDigitsChars_digit n.natAbs c (by simp [hform])
        refine ⟨c, cs, by rw [intChars, if_neg hneg, hform], ?_⟩
        rintro rfl
        simp [Char.isDigit] at hcdig
  | str s => exact ⟨'"', _, strVal_str s, by decide⟩
  | arr xs =>
      cases xs with
      | nil => exact ⟨'[', _, strVal_arr_nil, by decide⟩
      | cons x xs => exact ⟨'[', _, strVal_arr_cons x xs, by decide⟩
  | obj fs =>
      cases fs with
      | nil => exact ⟨'\x7b', _, strVal_obj_nil, by decide⟩
      | cons k v fs => exact ⟨'\x7b', _, strVal_obj_cons k v fs, by decide⟩

theorem strMembers_head (k : String) (v : JVal) (fs : JMembers) :
    ∃ t, strMembers k v fs = '"' :: t := by
  cases fs with
  | nil => exact ⟨_, strMembers_nil k v⟩
  | cons k' v' fs' => exact ⟨_, strMembers_cons k v k' v' fs'⟩

theorem parseElems_succ (fuel : Nat) (s : List Char) :
    parseElems (fuel + 1) s = parseElemsBody (parseVal fuel) (parseElems fuel) s := rfl

theorem parseMembers_succ (fuel : Nat) (s : List Char) :
    parseMembers (fuel + 1) s =
      parseMembersBody (parseVal fuel) (parseMembers fuel) s := rfl

theorem noDigitHead_cons (c : Char) (rest : List Char) (h : c.isDigit = false) :
    noDigitHead (c :: rest) := h

theorem strElems_shape (x : JVal) (xs : JList) :
    ∃ tail, strElems x xs = strVal x ++ tail := by
  cases xs with
  | nil => exact ⟨_, strElems_nil x⟩
  | cons y ys => exact ⟨_, strElems_cons x y ys⟩

theorem parse_print_fuel : ∀ fuel : Nat,
    (∀ (v : JVal) (rest : List Char), jdepth v < fuel → noDigitHead rest →
      parseVal fuel (strVal v ++ rest) = some (v, rest)) ∧
    (∀ (x : JVal) (xs : JList) (rest : List Char),
      1 + jdepth x + jdepthList xs < fuel →
      parseElems fuel (strElems x xs ++ rest) = some (.cons x xs, rest)) ∧
    (∀ (k : String) (v : JVal) (fs : JMembers) (rest : List Char),
      1 + jdepth v + jdepthMembers fs < fuel →
      parseMembers fuel (strMembers k v fs ++ rest) = some (.cons k v fs, rest)) := by
  intro fuel
  induction fuel with
  | zero =>
      exact ⟨fun v rest h _ => absurd h (by omega),
        fun x xs rest h => absurd h (by omega),
        fun k v fs rest h => absurd h (by omega)⟩
  | succ fuel ih =>
      obtain ⟨ihV, ihE, ihM⟩ := ih
      refine ⟨?_, ?_, ?_⟩
      · intro v rest hf hrest
        cases v with
        | null =>
            rw [strVal_null]
            simp only [List.cons_append, List.nil_append]
            exact parseVal_null_eq fuel rest
        | bool b =>
            cases b with
            | true =>
                rw [strVal_true]
                simp only [List.cons_append, List.nil_append]
                exact parseVal_true_eq fuel rest
            | false =>
                rw [strVal_false]
                simp only [List.cons_append, List.nil_append]
                exact parseVal_false_eq fuel rest
        | num n =>
            rw [strVal_num]
            exact parseVal_num fuel n rest hrest
        | str s =>
            have hshape : ('"' :: (escStr s.data ++ ['"'])) ++ rest =
                '"' :: (escStr s.data ++ ('"' :: rest)) := by simp
            rw [strVal_str, hshape, parseVal_str_eq, parseStrBody_escStr]
            rfl
        | arr xs =>
            cases xs with
            | nil =>
                rw [strVal_arr_nil]
                simp only [List.cons_append, List.nil_append]
                exact parseVal_arr_nil_eq fuel rest
            | cons x xs =>
                obtain ⟨c, cs, hx, hc⟩ := strVal_head x
                obtain ⟨tail, htail⟩ := strElems_shape x xs
                have hshape : ('[' :: strElems x xs) ++ rest =
                    '[' :: c :: (cs ++ tail ++ rest) := by
                  rw [htail, hx]
                  simp
                rw [strVal_arr_cons, hshape, parseVal_arr_eq fuel c _ hc]
                have hback : c :: (cs ++ tail ++ rest) = strElems x xs ++ rest := by
                  rw [htail, hx]
                  simp
                rw [hback, ihE x xs rest (by
                  have hj : jdepth (.arr (.cons x xs)) =
                      1 + (1 + jdepth x + jdepthList xs) := by
                    rw [jdepth, jdepthList]
                  omega)]
                rfl
        | obj fs =>
            cases fs with
            | nil =>
                rw [strVal_obj_nil]
                simp only [List.cons_append, List.nil_append]
                exact parseVal_obj_nil_eq fuel rest
            | cons k v fs =>
                obtain ⟨t, ht⟩ := strMembers_head k v fs
                have hshape : ('\x7b' :: strMembers k v fs) ++ rest =
                    '\x7b' :: '"' :: (t ++ rest) := by
                  rw [ht]
                  simp
                rw [strVal_obj_cons, hshape, parseVal_obj_eq fuel '"' _ (by decide)]
                have hback : '"' :: (t ++ rest) = strMembers k v fs ++ rest := by
                  rw [ht]
                  simp
                rw [hback, ihM k v fs rest (by
                  have hj : jdepth (.obj (.cons k v fs)) =
                      1 + (1 + jdepth v + jdepthMembers fs) := by
                    rw [jdepth, jdepthMembers]
                  omega)]
                rfl
      · intro x xs rest hf
        cases xs with
        | nil =>
            have hshape : strElems x .nil ++ rest = strVal x ++ (']' :: rest) := by
              rw [strElems_nil]
              simp
            rw [hshape, parseElems_succ, parseElemsBody,
              ihV x (']' :: rest) (by
                have hj : jdepthList JList.nil = 0 := by rw [jdepthList]
                omega) (noDigitHead_cons _ _ (by decide))]
            rfl
        | cons y ys =>
            have hshape : strElems x (.cons y ys) ++ rest =
                strVal x ++ (',' :: (strElems y ys ++ rest)) := by
              rw [strElems_cons]
              simp
            have hjx : jdepthList (JList.cons y ys) =
                1 + jdepth y + jdepthList ys := by rw [jdepthList]
            rw [hshape, parseElems_succ, parseElemsBody,
              ihV x (',' :: (strElems y ys ++ rest)) (by omega)
                (noDigitHead_cons _ _ (by decide))]
            simp [ihE y ys rest (by omega)]
      · intro k v fs rest hf
        cases fs with
        | nil =>
            have hshape : strMembers k v .nil ++ rest =
                '"' :: (escStr k.data ++ ('"' :: (':' :: (strVal v ++
                  ('\x7d' :: rest))))) := by
              rw [strMembers_nil]
              simp
            rw [hshape, parseMembers_succ]
            simp only [parseMembersBody, parseStrBody_escStr,
              ihV v ('\x7d' :: rest) (by omega) (noDigitHead_cons _ _ (by decide))]
        | cons k' v' fs' =>
            have hjx : jdepthMembers (JMembers.cons k' v' fs') =
                1 + jdepth v' + jdepthMembers fs' := by rw [jdepthMembers]
            have hshape : strMembers k v (.cons k' v' fs') ++ rest =
                '"' :: (escStr k.data ++ ('"' :: (':' :: (strVal v ++
                  (',' :: (strMembers k' v' fs' ++ rest)))))) := by
              rw [strMembers_cons]
              simp
            rw [hshape, parseMembers_succ]
            simp only [parseMembersBody, parseStrBody_escStr,
              ihV v (',' :: (strMembers k' v' fs' ++ rest)) (by omega)
                (noDigitHead_cons _ _ (by decide)),
              ihM k' v' fs' rest (by omega)]
            simp

mutual
/-- The fuel measure is bounded by the printed length. -/
theorem jdepth_le_strVal (v : JVal) : jdepth v ≤ (strVal v).length := by
  cases v with
  | null => rw [jdepth, strVal_null]; simp
  | bool b => cases b with
      | true => rw [jdepth, strVal_true]; simp
      | false => rw [jdepth, strVal_false]; simp
  | num n =>
      rw [jdepth, strVal_num]
      have hne : intChars n ≠ [] := by
        unfold intChars
        split
        · simp
        · exact natDigitsChars_ne_nil _
      have hpos := List.length_pos.mpr hne
      omega
  | str s => rw [jdepth, strVal_str]; simp
  | arr xs =>
      cases xs with
      | nil => rw [jdepth, jdepthList, strVal_arr_nil]; simp
      | cons x xs =>
          have hb := jdepthList_le_strElems x xs
          rw [jdepth, jdepthList, strVal_arr_cons]
          simp only [List.length_cons]
          omega
  | obj fs =>
      cases fs with
      | nil => rw [jdepth, jdepthMembers, strVal_obj_nil]; simp
      | cons k v fs =>
          have hb := jdepthMembers_le_strMembers k v fs
          rw [jdepth, jdepthMembers, strVal_obj_cons]
          simp only [List.length_cons]
          omega
termination_by sizeOf v
decreasing_by all_goals (simp_all; try omega)

/-- Element-list fuel measure bound. -/
theorem jdepthList_le_strElems (x : JVal) (xs : JList) :
    1 + jdepth x + jdepthList xs ≤ (strElems x xs).length := by
  cases xs with
  | nil =>
      have hb := jdepth_le_strVal x
      rw [jdepthList, strElems_nil]
      simp only [List.length_append, List.length_cons, List.length_nil]
      omega
  | cons y ys =>
      have hb1 := jdepth_le_strVal x
      have hb2 := jdepthList_le_strElems y ys
      rw [jdepthList, strElems_cons]
      simp only [List.length_append, List.length_cons]
      omega
termination_by 1 + sizeOf x + sizeOf xs
decreasing_by all_goals (simp_all; try omega)

/-- Member-list fuel measure bound. -/
theorem jdepthMembers_le_strMembers (k : String) (v : JVal) (fs : JMembers) :
    1 + jdepth v + jdepthMembers fs ≤ (strMembers k v fs).length := by
  cases fs with
  | nil =>
      have hb := jdepth_le_strVal v
      rw [jdepthMembers, strMembers_nil]
      simp only [List.length_append, List.length_cons, List.length_nil]
      omega
  | cons k' v' fs' =>
      have hb1 := jdepth_le_strVal v
      have hb2 := jdepthMembers_le_strMembers k' v' fs'
      rw [jdepthMembers, strMembers_cons]
      simp only [List.length_append, List.length_cons]
      omega
termination_by 1 + sizeOf v + sizeOf fs
decreasing_by all_goals (simp_all; try omega)
end

/-- The `JSON.parse` model inverts the `JSON.stringify` model: structural
round-trip of every modelled JSON value. -/
theorem jsonParse_jsonStringify (v : JVal) :
    jsonParse (jsonStringify v) = some v := by
  have hb := jdepth_le_strVal v
  have h := (parse_print_fuel (2 * (strVal v).length + 2)).1 v [] (by omega) trivial
  rw [List.append_nil] at h
  unfold jsonParse jsonStringify
  simp only [h]

theorem matchAt_not_opener (c1 c2 : Char) (rest : List Char)
    (h : ¬(c1 = '/' ∧ c2 = '*')) : matchAt (c1 :: c2 :: rest) = none := by
  simp [matchAt, h]

theorem scanMatch_cons_of_match (c : Char) (rest g : List Char)
    (h : matchAt (c :: rest) = some g) : scanMatch (c :: rest) = some g := by
  simp [scanMatch, h]

theorem hasStart_cons_false (c1 c2 : Char) (rest : List Char)
    (h : hasStart (c1 :: c2 :: rest) = false) :
    ¬(c1 = '/' ∧ c2 = '*') ∧ hasStart (c2 :: rest) = false := by
  rw [hasStart] at h
  simp only [Bool.or_eq_false_iff, Bool.and_eq_false_iff] at h
  constructor
  · rintro ⟨rfl, rfl⟩
    rcases h.1 with h' | h' <;> simp at h'
  · exact h.2

/-- A marker-free prefix does not affect where the regex first matches,
as long as the remaining text does not begin with `*` (which could fuse
with the prefix's last character into an opener). -/
theorem scanMatch_append (pre l : List Char) (hpre : hasStart pre = false)
    (hl : l.head? ≠ some '*') : scanMatch (pre ++ l) = scanMatch l := by
  induction pre with
  | nil => rfl
  | cons a pre' ih =>
      have hnone : matchAt (a :: (pre' ++ l)) = none := by
        cases pre' with
        | nil =>
            cases l with
            | nil => rfl
            | cons c cs =>
                refine matchAt_not_opener a c cs ?_
                rintro ⟨rfl, rfl⟩
                simp at hl
        | cons b pre'' =>
            have hb := (hasStart_cons_false a b pre'' (by simpa using hpre)).1
            exact matchAt_not_opener a b (pre'' ++ l) hb
      have hpre' : hasStart pre' = false := by
        cases pre' with
        | nil => rfl
        | cons b pre'' => exact (hasStart_cons_false a b pre'' (by simpa using hpre)).2
      rw [List.cons_append, scanMatch, hnone, ih hpre']

theorem stripLead_self (p : List Char) : ∀ r, stripLead p (p ++ r) = some r := by
  induction p with
  | nil => intro r; rfl
  | cons c cs ih => intro r; simp [stripLead, ih]

theorem findCloser_no_brace (inner : List Char) (hin : '\x7d' ∉ inner) :
    ∀ r, checkTail r = true → findCloser (inner ++ '\x7d' :: r) = some inner := by
  induction inner with
  | nil =>
      intro r hr
      simp [findCloser, hr]
  | cons c cs ih =>
      intro r hr
      have hc : c ≠ '\x7d' := fun h => hin (by simp [h])
      have hcs : '\x7d' ∉ cs := fun h => hin (by simp [h])
      simp only [List.cons_append, findCloser, hc, Bool.false_and,
        Bool.and_eq_true, decide_eq_true_eq, false_and, if_false,
        List.append_eq]
      rw [ih hcs r hr]
      simp

theorem matchAt_sampleBlock (post : List Char) :
    matchAt (sampleBlock.data ++ post) = some samplePayload.data := by
  have h1 : sampleBlock.data ++ post =
      '/' :: '*' :: (' ' :: ("@plugin".data ++ (' ' :: ('\x7b' ::
        (payloadInner.data ++ ('\x7d' :: (' ' :: '*' :: '/' :: post))))))) := by
    simp [sampleBlock, samplePayload, payloadInner]
  have htail : checkTail (' ' :: '*' :: '/' :: post) = true := by
    simp [checkTail, dropWs, isWsC]
  have hnb : '\x7d' ∉ payloadInner.data := by decide
  rw [h1, matchAt]
  simp only [reduceCtorEq, and_self, if_pos, trivial]
  have hws : dropWs (' ' :: ("@plugin".data ++ (' ' :: ('\x7b' ::
      (payloadInner.data ++ ('\x7d' :: (' ' :: '*' :: '/' :: post))))))) =
      "@plugin".data ++ (' ' :: ('\x7b' ::
      (payloadInner.data ++ ('\x7d' :: (' ' :: '*' :: '/' :: post))))) := by
    simp [dropWs, isWsC]
  have hws2 : dropWs (' ' :: ('\x7b' ::
      (payloadInner.data ++ ('\x7d' :: (' ' :: '*' :: '/' :: post))))) =
      '\x7b' :: (payloadInner.data ++ ('\x7d' :: (' ' :: '*' :: '/' :: post))) := by
    simp [dropWs, isWsC]
  have hsp : samplePayload.data = '\x7b' :: (payloadInner.data ++ ['\x7d']) := by
    simp [samplePayload]
  rw [hws, stripLead_self]
  simp [hws2, findCloser_no_brace payloadInner.data hnb _ htail, hsp]

theorem scanMatch_sample (pre post : List Char) (hpre : hasStart pre = false) :
    scanMatch (pre ++ (sampleBlock.data ++ post)) = some samplePayload.data := by
  have hhead : (sampleBlock.data ++ post).head? ≠ some '*' := by
    simp [sampleBlock]
  rw [scanMatch_append pre _ hpre hhead]
  have hm := matchAt_sampleBlock post
  cases hform : sampleBlock.data ++ post with
  | nil =>
      rw [hform] at hm
      simp [matchAt] at hm
  | cons c rest =>
      rw [hform] at hm
      exact scanMatch_cons_of_match c rest _ hm

theorem jsonParse_samplePayload : jsonParse samplePayload = some sampleMeta := by
  decide

theorem startSystemMonitoring_run (interval : ℕ) (s : MonState)
    (hinv : MonInv s) :
    startSystemMonitoring interval s =
      { timers := [⟨s.nextId, interval⟩], nextId := s.nextId + 1,
        monRef := some s.nextId } := by
  obtain ⟨hall, hlen⟩ := hinv
  unfold startSystemMonitoring setIntervalM
  cases hm : s.monRef with
  | none =>
      have hnil : s.timers = [] := by
        cases ht : s.timers with
        | nil => rfl
        | cons t ts =>
            have := (hall t (by simp [ht])).1
            rw [hm] at this
            cases this
      simp [hnil]
  | some i =>
      have hids : ∀ t ∈ s.timers, t.id = i := by
        intro t ht
        have h := (hall t ht).1
        rw [hm] at h
        exact (Option.some.inj h).symm
      have hfil : s.timers.filter (fun t => t.id ≠ i) = [] := by
        rw [List.filter_eq_nil_iff]
        intro t ht
        simp [hids t ht]
      simp [clearIntervalM, hfil]
      exact hids

/-- Claim C1: `getSystemData` either returns a snapshot with all four
sub-fields populated from the four provider results, or yields no snapshot
at all (`null`) as soon as any sub-query fails; the timer callback never
touches the timers, so a failed sample does not stop the loop. -/
theorem sampler_sample_all_or_nothing :
    ∀ (cpu : Except String CurrentLoadInfo) (mem : Except String MemInfo)
      (disk : Except String (List FsSizeEntry))
      (network : Except String (List NetStatEntry)) (now : ℤ) (s : MonState),
      ((getSystemData cpu mem disk network now).isSome ↔
        cpu.isOk ∧ mem.isOk ∧ disk.isOk ∧ network.isOk) ∧
      (∀ snap, getSystemData cpu mem disk network now = some snap →
        ∃ c m d n, cpu = .ok c ∧ mem = .ok m ∧ disk = .ok d ∧ network = .ok n ∧
          snap = { cpu := cpuOut c, memory := memOut m, disk := d.map diskOut,
                   network := netOut n, timestamp := now }) ∧
      (monitorTick (getSystemData cpu mem disk network now) s).1 = s := by
  intro cpu mem disk network now s
  refine ⟨?_, ?_, rfl⟩
  · cases cpu <;> cases mem <;> cases disk <;> cases network <;>
      simp [getSystemData, Except.isOk, Except.toBool]
  · intro snap h
    cases cpu <;> cases mem <;> cases disk <;> cases network <;>
      simp only [getSystemData, reduceCtorEq] at h
    exact ⟨_, _, _, _, rfl, rfl, rfl, rfl, (Option.some.inj h).symm⟩

/-- Witness for C1 at concrete provider outcomes. -/
theorem sampler_sample_all_or_nothing_witness :
    ¬ (getSystemData (.error "boom") (.ok ⟨1000, 500, 500, 500, 500⟩)
        (.ok []) (.ok []) 0).isSome ∧
    (getSystemData (.ok ⟨42, []⟩) (.ok ⟨1000, 500, 500, 500, 500⟩)
        (.ok []) (.ok []) 0).isSome := by
  constructor
  · rw [(sampler_sample_all_or_nothing (.error "boom")
      (.ok ⟨1000, 500, 500, 500, 500⟩) (.ok []) (.ok []) 0
      ⟨[], 0, none⟩).1]
    decide
  · rw [(sampler_sample_all_or_nothing (.ok ⟨42, []⟩)
      (.ok ⟨1000, 500, 500, 500, 500⟩) (.ok []) (.ok []) 0
      ⟨[], 0, none⟩).1]
    decide

/-- Claim C2: starting the monitor twice leaves exactly one live periodic
timer, carrying the most recently configured interval, and the timer
invariant is preserved. -/
theorem sampler_start_single_timer :
    ∀ (s : MonState) (i1 i2 : ℕ), 0 < i1 → 0 < i2 → MonInv s →
      (∃ tid, (startSystemMonitoring i2 (startSystemMonitoring i1 s)).timers =
          [⟨tid, i2⟩] ∧
        (startSystemMonitoring i2 (startSystemMonitoring i1 s)).monRef =
          some tid) ∧
      MonInv (startSystemMonitoring i2 (startSystemMonitoring i1 s)) := by
  intro s i1 i2 _ _ hinv
  have hinv1 : MonInv (startSystemMonitoring i1 s) := by
    rw [startSystemMonitoring_run i1 s hinv]
    refine ⟨?_, by simp⟩
    intro t ht
    simp only [List.mem_singleton] at ht
    subst ht
    simp
  rw [startSystemMonitoring_run i2 _ hinv1]
  refine ⟨⟨(startSystemMonitoring i1 s).nextId, rfl, rfl⟩, ?_, by simp⟩
  intro t ht
  simp only [List.mem_singleton] at ht
  subst ht
  simp

/-- Witness for C2 from the pristine state. -/
theorem sampler_start_single_timer_witness :
    (∃ tid, (startSystemMonitoring 3000 (startSystemMonitoring 5000
        ⟨[], 0, none⟩)).timers = [⟨tid, 3000⟩] ∧
      (startSystemMonitoring 3000 (startSystemMonitoring 5000
        ⟨[], 0, none⟩)).monRef = some tid) := by
  exact (sampler_start_single_timer ⟨[], 0, none⟩ 5000 3000 (by decide)
    (by decide) ⟨fun t ht => by simp at ht, by decide⟩).1

theorem toFixed1_50 : toFixed1 (50 : ℚ) = "50.0" := by
  have hfloor : Rat.floor (|(50 : ℚ)| * 10 + 1 / 2) = 500 := by
    rw [show Rat.floor (|(50 : ℚ)| * 10 + 1 / 2) =
      ⌊(|(50 : ℚ)| * 10 + 1 / 2)⌋ from rfl]
    norm_num
  simp only [toFixed1, hfloor]
  norm_num
  decide

/-- Counterexample for C9: on the mocked providers the snapshot's
`memory.percentage` is the one-decimal string `"50.0"` produced by
`toFixed(1)`, not the number `50.0` the claim asserts. -/
theorem snapshot_scenario_percentage_is_string :
    (scenarioSnapshot.map (fun s => s.memory.percentage)) =
        some (JVal.str "50.0") ∧
      JVal.str "50.0" ≠ JVal.num 50 := by
  constructor
  · have harg : (500 : ℚ) / 1000 * 100 = 50 := by norm_num
    simp [scenarioSnapshot, getSystemData, memOut, harg, toFixed1_50]
  · decide

/-- Claim C9 (amended): the full snapshot for the mocked providers — cpu
load 42, first disk usage 70, network rx 100 / tx 50 as exact numbers, and
`memory.percentage` as the string `"50.0"`. -/
theorem snapshot_scenario :
    scenarioSnapshot = some
      { cpu := ⟨42, 0, 0⟩
        memory := ⟨1000, 500, 500, 500, 500, .str "50.0"⟩
        disk := [⟨"C:", 1000, 700, 300, 70⟩]
        network := ⟨100, 50, 0⟩
        timestamp := 0 } := by
  have harg : (500 : ℚ) / 1000 * 100 = 50 := by norm_num
  simp [scenarioSnapshot, getSystemData, cpuOut, memOut, diskOut, netOut,
    harg, toFixed1_50]

/-- Counterexample for C3: a module whose top-level code throws is logged
to the console only — the trace of the failing `loadPlugin` holds a single
`logError` event and no notification is surfaced to the operator. -/
theorem plugin_load_failure_counterexample :
    (loadPlugin ⟨fun _ => some "boom", fun _ => .throwsTop⟩ "p.js"
        psEmpty).2 = [PEv.logError "createPluginModule"] ∧
      hasNotify (loadPlugin ⟨fun _ => some "boom", fun _ => .throwsTop⟩
        "p.js" psEmpty).2 = false := by
  constructor
  · rfl
  · rfl

/-- Claim C3 (amended): when `loadPlugin` raises, the whole state — active
set, the module's config entry, every other module's metadata and status —
is unchanged, the error is logged to the console, and no operator
notification is emitted by `loadPlugin`; a path is in the active set after
a load only if it was already active or its module's `init` resolved. -/
theorem plugin_load_failure_isolated :
    ∀ (env : PluginEnv) (path : String) (s : PS),
      (loadRaises env path → path ∉ s.activePlugins →
        (loadPlugin env path s).1 = s ∧
        (∃ site, PEv.logError site ∈ (loadPlugin env path s).2) ∧
        hasNotify (loadPlugin env path s).2 = false ∧
        path ∉ (loadPlugin env path s).1.activePlugins) ∧
      (path ∈ (loadPlugin env path s).1.activePlugins →
        path ∈ s.activePlugins ∨
          ∃ c, env.readFile (pluginDirectory ++ "/" ++ path) = some c ∧
            env.runModule c = .initOk) := by
  intro env path s
  constructor
  · rintro ⟨c, hread, hrun⟩ hactive
    rcases hrun with hrun | hrun <;>
      simp [loadPlugin, hread, createPluginModule, hrun, hasNotify, hactive]
  · intro hmem
    cases hread : env.readFile (pluginDirectory ++ "/" ++ path) with
    | none =>
        rw [loadPlugin, hread] at hmem
        exact Or.inl hmem
    | some c =>
        cases hrun : env.runModule c with
        | throwsTop =>
            simp only [loadPlugin, hread, createPluginModule, hrun] at hmem
            exact Or.inl hmem
        | noInit =>
            simp only [loadPlugin, hread, createPluginModule, hrun] at hmem
            exact Or.inl hmem
        | initThrows =>
            simp only [loadPlugin, hread, createPluginModule, hrun] at hmem
            exact Or.inl hmem
        | initOk => exact Or.inr ⟨c, rfl, hrun⟩

/-- Witness for C3 (amended) on a module whose `init` rejects. -/
theorem plugin_load_failure_isolated_witness :
    (loadPlugin ⟨fun _ => some "x", fun _ => .initThrows⟩ "p.js"
        psEmpty).1 = psEmpty ∧
      hasNotify (loadPlugin ⟨fun _ => some "x", fun _ => .initThrows⟩
        "p.js" psEmpty).2 = false := by
  have h := (plugin_load_failure_isolated
    ⟨fun _ => some "x", fun _ => .initThrows⟩ "p.js" psEmpty).1
    ⟨"x", rfl, Or.inr rfl⟩ (by simp [psEmpty])
  exact ⟨h.1, h.2.2.1⟩

/-- Claim C5: the injected module-resolution function raises exactly on
the names outside the single allowed dependency `chart.js`, succeeds on
`chart.js`, and plugin top-level code runs with exactly the three
injectable names `exports`, `require`, `api` bound. -/
theorem plugin_require_whitelist :
    ∀ (win : String → Option JVal) (m : String),
      ((∃ e, moduleRequire win m = .error e) ↔ m ≠ "chart.js") ∧
      (∃ v, moduleRequire win "chart.js" = .ok v) ∧
      pluginInjectedNames = ["exports", "require", "api"] ∧
      pluginInjectedNames.length = 3 := by
  intro win m
  refine ⟨?_, ⟨(win "chart.js").getD (.obj .nil),
    by simp [moduleRequire, allowedModules]⟩, rfl, rfl⟩
  by_cases hm : m = "chart.js" <;>
    simp [moduleRequire, allowedModules, hm]

theorem loadPlugin_no_persist (env : PluginEnv) (path : String) (s : PS) :
    PEv.persist ∉ (loadPlugin env path s).2 := by
  cases hread : env.readFile (pluginDirectory ++ "/" ++ path) with
  | none => simp [loadPlugin, hread]
  | some c =>
      cases hrun : env.runModule c <;>
        simp [loadPlugin, hread, createPluginModule, hrun]

theorem loadPlugin_configs (env : PluginEnv) (path : String) (s : PS) :
    (loadPlugin env path s).1.pluginConfigs = s.pluginConfigs := by
  cases hread : env.readFile (pluginDirectory ++ "/" ++ path) with
  | none => simp [loadPlugin, hread]
  | some c =>
      cases hrun : env.runModule c <;>
        simp only [loadPlugin, hread, createPluginModule, hrun]
      split <;> rfl

/-- Counterexample for C6: enabling a known module runs the load step
(`activeAdd`) strictly before the persistence event — `savePluginConfigs`
is called only after loading, so persistence does not precede the load. -/
theorem toggle_persist_order_counterexample :
    (togglePlugin ⟨fun _ => some "ok", fun _ => .initOk⟩ "p.js" true
        ⟨[("p.js", JVal.null)], [], [], [], none⟩).2 =
      [.configSet "p.js" true, .activeAdd "p.js", .persist, .render,
        .notify "Plugin enabled"] ∧
      persistsBeforeAction (togglePlugin ⟨fun _ => some "ok",
        fun _ => .initOk⟩ "p.js" true
        ⟨[("p.js", JVal.null)], [], [], [], none⟩).2 = false := by
  constructor
  · rfl
  · rfl

/-- Claim C6 (amended): every `togglePlugin` run updates the in-memory
config entry first, performs the load or unload step next, and persists to
disk only afterwards; the persisted document is the updated config map. -/
theorem toggle_persist_order :
    ∀ (env : PluginEnv) (path : String) (enabled : Bool) (s : PS),
      ∃ evs, (togglePlugin env path enabled s).2 =
          .configSet path enabled :: (evs ++ [.persist, .render,
            .notify ("Plugin " ++ (if enabled then "enabled" else "disabled"))]) ∧
        PEv.persist ∉ evs ∧
        (togglePlugin env path enabled s).1.diskConfigs =
          some (setA s.pluginConfigs path enabled) := by
  intro env path enabled s
  cases enabled with
  | false =>
      refine ⟨[.removeTab path, .activeRemove path], ?_, by simp, rfl⟩
      simp [togglePlugin, unloadPlugin, savePluginConfigs]
  | true =>
      cases hlook : lookupA s.plugins path with
      | none =>
          refine ⟨[], ?_, by simp, ?_⟩ <;>
            simp [togglePlugin, hlook, savePluginConfigs]
      | some m =>
          refine ⟨(loadPlugin env path
            { s with pluginConfigs := setA s.pluginConfigs path true }).2,
            ?_, loadPlugin_no_persist env path _, ?_⟩
          · simp [togglePlugin, hlook, savePluginConfigs]
          · simp [togglePlugin, hlook, savePluginConfigs,
              loadPlugin_configs env path
                { s with pluginConfigs := setA s.pluginConfigs path true }]

/-- Claim C7: deleting a currently-active module first unloads it (its tab
is removed and it leaves the active set while metadata and config are
still present), only afterwards erases metadata and config (in one
synchronous step, so no observable state has a config entry outliving the
metadata with the tab already gone), and afterwards the path is absent
from the metadata map, the config map, the active set and the tabs, with
the shrunken config map persisted. -/
theorem delete_active_module_sequence :
    ∀ (path : String) (s : PS),
      path ∈ s.activePlugins →
      lookupA s.plugins path ≠ none →
      (deletePlugin true path s).2 =
        [.removeTab path, .activeRemove path, .metaDelete path,
          .configDelete path, .persist, .render, .notify "Plugin deleted"] ∧
      ((unloadPlugin path s).1.plugins = s.plugins ∧
        (unloadPlugin path s).1.pluginConfigs = s.pluginConfigs ∧
        path ∉ (unloadPlugin path s).1.tabs ∧
        path ∉ (unloadPlugin path s).1.activePlugins) ∧
      (∀ σ ∈ deletePluginObservable path s,
        ¬(lookupA σ.pluginConfigs path ≠ none ∧ path ∉ σ.tabs ∧
          lookupA σ.plugins path = none)) ∧
      lookupA (deletePlugin true path s).1.plugins path = none ∧
      lookupA (deletePlugin true path s).1.pluginConfigs path = none ∧
      path ∉ (deletePlugin true path s).1.activePlugins ∧
      path ∉ (deletePlugin true path s).1.tabs ∧
      (deletePlugin true path s).1.diskConfigs =
        some (removeA s.pluginConfigs path) := by
  intro path s _ hmeta
  refine ⟨rfl, ⟨rfl, rfl, by simp [unloadPlugin], by simp [unloadPlugin]⟩,
    ?_, ?_, ?_, ?_, ?_, rfl⟩
  · intro σ hσ
    simp only [deletePluginObservable, List.mem_cons, List.mem_singleton,
      List.not_mem_nil, or_false] at hσ
    rcases hσ with rfl | rfl | rfl | rfl
    · rintro ⟨_, _, hnone⟩
      exact hmeta hnone
    · rintro ⟨_, _, hnone⟩
      exact hmeta hnone
    · rintro ⟨hcfg, _, _⟩
      exact hcfg (lookupA_removeA_self _ path)
    · rintro ⟨hcfg, _, _⟩
      exact hcfg (lookupA_removeA_self _ path)
  · exact lookupA_removeA_self _ path
  · exact lookupA_removeA_self _ path
  · simp [deletePlugin, unloadPlugin, savePluginConfigs]
  · simp [deletePlugin, unloadPlugin, savePluginConfigs]

/-- Witness for C7 on a concrete active module. -/
theorem delete_active_module_sequence_witness :
    (deletePlugin true "p.js"
        ⟨[("p.js", JVal.null)], [("p.js", true)], ["p.js"], ["p.js"],
          none⟩).2 =
      [.removeTab "p.js", .activeRemove "p.js", .metaDelete "p.js",
        .configDelete "p.js", .persist, .render,
        .notify "Plugin deleted"] := by
  exact (delete_active_module_sequence "p.js"
    ⟨[("p.js", JVal.null)], [("p.js", true)], ["p.js"], ["p.js"], none⟩
    (by decide) (by decide)).1

theorem chartFold_spec {α : Type} (pushes : List (String × α)) :
    ∀ (c : ChartData α), c.labels.length = c.values.length →
      c.values.length ≤ 20 →
      (pushes.foldl (fun c p => updateChart c p.1 p.2) c).values =
          (c.values ++ pushes.map Prod.snd).drop
            ((c.values.length + pushes.length) - 20) ∧
        (pushes.foldl (fun c p => updateChart c p.1 p.2) c).labels.length =
          (pushes.foldl (fun c p => updateChart c p.1 p.2) c).values.length ∧
        (pushes.foldl (fun c p => updateChart c p.1 p.2) c).values.length ≤ 20 := by
  induction pushes with
  | nil =>
      intro c hlab hlen
      refine ⟨?_, hlab, hlen⟩
      simp only [List.foldl_nil, List.map_nil, List.append_nil,
        List.length_nil, Nat.add_zero]
      rw [show c.values.length - 20 = 0 from by omega, List.drop_zero]
  | cons p ps ih =>
      intro c hlab hlen
      rw [List.foldl_cons]
      by_cases hfull : c.values.length = 20
      · have hcond : 20 < (c.labels ++ [p.1]).length := by
          simp [hlab, hfull]
        have hc' : updateChart c p.1 p.2 =
            ⟨(c.labels ++ [p.1]).tail, (c.values ++ [p.2]).tail⟩ := by
          simp only [updateChart, if_pos hcond]
        obtain ⟨hv, hl, hb⟩ := ih ⟨(c.labels ++ [p.1]).tail,
          (c.values ++ [p.2]).tail⟩ (by simp [hlab]) (by simp; omega)
        rw [hc']
        refine ⟨?_, hl, hb⟩
        rw [hv]
        rw [show (c.values ++ [p.2]).tail = (c.values ++ [p.2]).drop 1 from
          (List.drop_one _).symm]
        have hidx1 : ((c.values ++ [p.2]).drop 1).length + ps.length - 20 =
            ps.length := by
          simp only [List.length_drop, List.length_append,
            List.length_singleton]
          omega
        rw [hidx1]
        rw [← List.drop_append_of_le_length
          (by simp : 1 ≤ (c.values ++ [p.2]).length), List.drop_drop]
        rw [show (c.values ++ [p.2]) ++ ps.map Prod.snd =
            c.values ++ (p :: ps).map Prod.snd from by simp]
        congr 1
        simp only [List.length_cons]
        omega
      · have hcond : ¬ 20 < (c.labels ++ [p.1]).length := by
          simp [hlab]; omega
        have hc' : updateChart c p.1 p.2 =
            ⟨c.labels ++ [p.1], c.values ++ [p.2]⟩ := by
          simp only [updateChart, if_neg hcond]
        obtain ⟨hv, hl, hb⟩ := ih ⟨c.labels ++ [p.1], c.values ++ [p.2]⟩
          (by simp [hlab]) (by simp; omega)
        rw [hc']
        refine ⟨?_, hl, hb⟩
        rw [hv]
        rw [show (c.values ++ [p.2]) ++ ps.map Prod.snd =
            c.values ++ (p :: ps).map Prod.snd from by simp]
        congr 1
        simp only [List.length_append, List.length_singleton,
          List.length_cons, List.length_nil]
        omega

/-- Claim C8: the chart window never exceeds 20 values; past 20 pushes it
holds exactly the last 20 pushed values in order (oldest evicted first),
and the most recent push is its last element. -/
theorem chart_window_fifo :
    ∀ (pushes : List (String × ℚ)),
      (∀ n, (chartRun (pushes.take n)).values.length ≤ 20) ∧
      (20 < pushes.length →
        (chartRun pushes).values.length = 20 ∧
        (chartRun pushes).values =
          (pushes.map Prod.snd).drop (pushes.length - 20) ∧
        (chartRun pushes).values.getLast? =
          (pushes.map Prod.snd).getLast?) := by
  intro pushes
  constructor
  · intro n
    exact (chartFold_spec (pushes.take n) ⟨[], []⟩ rfl (by simp)).2.2
  · intro hlong
    obtain ⟨hv, _, _⟩ := chartFold_spec pushes ⟨[], []⟩ rfl (by simp)
    simp only [List.nil_append, List.length_nil, Nat.zero_add] at hv
    simp only [chartRun]
    refine ⟨?_, hv, ?_⟩
    · rw [hv, List.length_drop, List.length_map]
      omega
    · rw [hv]
      have hsplit : (pushes.map Prod.snd) =
          (pushes.map Prod.snd).take (pushes.length - 20) ++
            (pushes.map Prod.snd).drop (pushes.length - 20) :=
        (List.take_append_drop _ _).symm
      have hne : (pushes.map Prod.snd).drop (pushes.length - 20) ≠ [] := by
        have : ((pushes.map Prod.snd).drop (pushes.length - 20)).length =
            pushes.length - (pushes.length - 20) := by
          rw [List.length_drop, List.length_map]
        intro hnil
        rw [hnil] at this
        simp at this
        omega
      conv_rhs => rw [hsplit]
      rw [List.getLast?_append_of_ne_nil _ hne]

/-- Witness for C8 on a sequence of 21 pushes. -/
theorem chart_window_fifo_witness :
    (chartRun (List.replicate 21 ("", (1 : ℚ)))).values.length = 20 := by
  exact ((chart_window_fifo (List.replicate 21 ("", (1 : ℚ)))).2
    (by simp)).1

theorem jsonStringify_not_empty (v : JVal) :
    (jsonStringify v).isEmpty = false := by
  obtain ⟨c, cs, hform, _⟩ := strVal_head v
  rw [Bool.eq_false_iff]
  intro h
  have h2 := (String.isEmpty_iff _).mp h
  have h3 : (jsonStringify v).data = "".data := by rw [h2]
  rw [jsonStringify] at h3
  simp [hform] at h3

/-- Claim C10: if a set reports success, a subsequent get returns a value
structurally equal to the stored one; a never-set key reads as null; a
failed set reports `false` and leaves the storage unchanged (and both
operations are total — no exception escapes). -/
theorem plugin_storage_roundtrip :
    ∀ (quota : Nat) (st : List (String × String)) (k : String) (v : JVal),
      (∀ st', setPluginStorage quota st k v = (st', true) →
        getPluginStorage st' k = some v) ∧
      (lookupA st ("plugin_" ++ k) = none →
        getPluginStorage st k = none) ∧
      (∀ st', setPluginStorage quota st k v = (st', false) → st' = st) := by
  intro quota st k v
  refine ⟨?_, ?_, ?_⟩
  · intro st' hset
    have hq : storageSize (setA st ("plugin_" ++ k) (jsonStringify v)) ≤ quota ∧
        st' = setA st ("plugin_" ++ k) (jsonStringify v) := by
      by_cases hcase : storageSize (setA st ("plugin_" ++ k)
          (jsonStringify v)) ≤ quota
      · refine ⟨hcase, ?_⟩
        simp only [setPluginStorage, localStorageSet, if_pos hcase] at hset
        exact (Prod.ext_iff.mp hset).1.symm
      · simp only [setPluginStorage, localStorageSet, if_neg hcase] at hset
        simp at hset
    rw [hq.2, getPluginStorage, lookupA_setA_self]
    simp [jsonStringify_not_empty v, jsonParse_jsonStringify]
  · intro hmiss
    rw [getPluginStorage, hmiss]
  · intro st' hset
    by_cases hcase : storageSize (setA st ("plugin_" ++ k)
        (jsonStringify v)) ≤ quota
    · simp only [setPluginStorage, localStorageSet, if_pos hcase] at hset
      simp at hset
    · simp only [setPluginStorage, localStorageSet, if_neg hcase] at hset
      exact (Prod.ext_iff.mp hset).1.symm

theorem jsonStringify_concrete :
    jsonStringify (JVal.obj (.cons "b" (.str "c") .nil)) =
      String.mk ['\x7b', '"', 'b', '"', ':', '"', 'c', '"', '\x7d'] := by
  rw [jsonStringify, strVal_obj_cons, strMembers_nil, strVal_str]
  simp [escStr, escChar]

/-- Witness for C10: a set-then-get round-trip on a concrete object. -/
theorem plugin_storage_roundtrip_witness :
    getPluginStorage (setA [] ("plugin_" ++ "a")
        (jsonStringify (JVal.obj (.cons "b" (.str "c") .nil)))) "a" =
      some (JVal.obj (.cons "b" (.str "c") .nil)) := by
  exact (plugin_storage_roundtrip 1000 [] "a"
    (JVal.obj (.cons "b" (.str "c") .nil))).1 _ (by
      simp only [setPluginStorage, localStorageSet, storageSize,
        jsonStringify_concrete]
      decide)

/-- Counterexample for C4: a source text that does contain the well-formed
metadata block — the second comment — still yields no metadata, because
the regex commits to the leftmost marker, whose payload `{,}` is not
valid JSON; the block on its own parses to the four-field record. -/
theorem metadata_extraction_counterexample :
    extractPluginMetadata jsonParse
        ("/* @plugin \x7b,\x7d */ " ++ sampleBlock) = none ∧
      extractPluginMetadata jsonParse sampleBlock = some sampleMeta := by
  constructor
  · decide
  · decide

/-- Claim C4 (amended): when the leftmost regex match is the well-formed
block (in particular whenever no `/*` precedes it), extraction returns
exactly the four declared fields and the module is registered under its
path; when the marker is absent, or the matched payload fails to parse,
extraction returns nothing and the candidate is left unregistered, with
no exception escaping. -/
theorem metadata_extraction_correct :
    (∀ (pre post : List Char) (readF : String → Option String)
        (path : String) (plugins : List (String × JVal)),
      hasStart pre = false →
      readF (pluginDirectory ++ "/" ++ path) =
        some (String.mk (pre ++ (sampleBlock.data ++ post))) →
      extractPluginMetadata jsonParse
          (String.mk (pre ++ (sampleBlock.data ++ post))) = some sampleMeta ∧
        lookupA (loadPluginMetadata jsonParse readF pluginDirectory path
          plugins) path = some sampleMeta) ∧
    (∀ (jp : String → Option JVal) (content : String),
      scanMatch content.data = none →
      extractPluginMetadata jp content = none) ∧
    (∀ (jp : String → Option JVal) (content : String) (g : List Char),
      scanMatch content.data = some g → jp (String.mk g) = none →
      extractPluginMetadata jp content = none) ∧
    (∀ (jp : String → Option JVal) (readF : String → Option String)
        (path : String) (plugins : List (String × JVal)) (content : String),
      readF (pluginDirectory ++ "/" ++ path) = some content →
      extractPluginMetadata jp content = none →
      loadPluginMetadata jp readF pluginDirectory path plugins = plugins) := by
  refine ⟨?_, ?_, ?_, ?_⟩
  · intro pre post readF path plugins hpre hread
    have hscan := scanMatch_sample pre post hpre
    have he : extractPluginMetadata jsonParse
        (String.mk (pre ++ (sampleBlock.data ++ post))) = some sampleMeta := by
      unfold extractPluginMetadata
      rw [show (String.mk (pre ++ (sampleBlock.data ++ post))).data =
        pre ++ (sampleBlock.data ++ post) from rfl, hscan]
      show jsonParse (String.mk samplePayload.data) = some sampleMeta
      rw [show String.mk samplePayload.data = samplePayload from rfl]
      exact jsonParse_samplePayload
    refine ⟨he, ?_⟩
    simp only [loadPluginMetadata, hread, he, lookupA_setA_self]
  · intro jp content h
    simp [extractPluginMetadata, h]
  · intro jp content g hscan hjp
    simp [extractPluginMetadata, hscan, hjp]
  · intro jp readF path plugins content hread hext
    simp [loadPluginMetadata, hread, hext]

/-- Witness for C4 (amended): the block with nothing around it parses to
the four-field record and registers the module. -/
theorem metadata_extraction_correct_witness :
    extractPluginMetadata jsonParse
        (String.mk ([] ++ (sampleBlock.data ++ []))) = some sampleMeta := by
  exact ((metadata_extraction_correct).1 [] []
    (fun _ => some (String.mk ([] ++ (sampleBlock.data ++ []))))
    "p.js" [] rfl rfl).1

/-- Witness for C5 at a concrete module name. -/
theorem plugin_require_whitelist_witness :
    (∃ e, moduleRequire (fun _ => none) "fs" = .error e) ∧
      (∃ v, moduleRequire (fun _ => none) "chart.js" = .ok v) := by
  have h := plugin_require_whitelist (fun _ => none) "fs"
  exact ⟨h.1.mpr (by decide), h.2.1⟩
